import Mathlib

/-!
Verification of a structural type checker for a small expression language
(functions, records, recursive function definitions, subtyping, and
equi-recursive record types).  The development shallowly embeds the three
checker variants of the repository:

* namespace STLC: the shared type language of the recursive-function and
  subtyping variants (no recursive types), with the structural equality
  typeEq and the subtyping relation subType;
* namespace SubV: the subtyping variant of the driver (call sites use
  subType);
* namespace RecFuncV: the recursive-function variant of the driver (call
  sites use typeEq);
* namespace RecT: the equi-recursive-types variant, with typeEqNaive,
  typeEqSub, expandType, simplifyType and its driver.  The functions of
  this variant are not total on all inputs, so they are embedded with an
  explicit fuel parameter; a result of none means the fuel ran out, and
  a value that is none for every fuel corresponds to non-termination of
  the original code.  Thrown exceptions are embedded with Except.

Environments and string-keyed records are embedded as association lists
where an update prepends the new binding and lookup returns the first
match, which models the overwrite semantics of the source's record spread.
-/

set_option maxHeartbeats 1600000

namespace STLC

/-- The type language shared by the recursive-function and subtyping
variants: Boolean, Number, function types with named parameters, and
record types with named fields.  Parameters and fields are name/type
pairs. -/
inductive Ty where
| Boolean : Ty
| Number : Ty
| Func : List (String × Ty) → Ty → Ty
| Object : List (String × Ty) → Ty

abbrev TypeEnv := List (String × Ty)

/-- Lookup of a variable in a type environment (first match wins). -/
def lookupEnv (env : TypeEnv) (x : String) : Option Ty :=
  (env.find? (fun p => p.1 == x)).map (fun p => p.2)

/-- The source's props.find over a record's field list. -/
def findProp (props : List (String × Ty)) (n : String) : Option (String × Ty) :=
  props.find? (fun p => p.1 == n)

mutual

/-- Structural type equality, dispatching on the second type's tag,
as in the source's typeEq. -/
def typeEq (t1 t2 : Ty) : Bool :=
  match t2 with
  | .Boolean => match t1 with | .Boolean => true | _ => false
  | .Number => match t1 with | .Number => true | _ => false
  | .Func p2 r2 =>
    match t1 with
    | .Func p1 r1 => p1.length == p2.length && typeEqParams p1 p2 && typeEq r1 r2
    | _ => false
  | .Object ps2 =>
    match t1 with
    | .Object ps1 => ps1.length == ps2.length && typeEqProps ps1 ps2
    | _ => false
termination_by sizeOf t1 + sizeOf t2
decreasing_by all_goals (simp_wf; try omega)

/-- The parameter loop of typeEq (positional, only reached when the two
lists have equal length). -/
def typeEqParams : List (String × Ty) → List (String × Ty) → Bool
| [], _ => true
| _ :: _, [] => true
| p :: ps, q :: qs => typeEq p.2 q.2 && typeEqParams ps qs
termination_by l1 l2 => sizeOf l1 + sizeOf l2
decreasing_by all_goals (obtain ⟨pn, pt⟩ := p; obtain ⟨qn, qt⟩ := q; simp_wf; omega)

/-- The field loop of typeEq: every field of the second record is looked
up by name in the first. -/
def typeEqProps (ps1 : List (String × Ty)) : List (String × Ty) → Bool
| [] => true
| q :: qs =>
  match h : findProp ps1 q.1 with
  | none => false
  | some p => typeEq p.2 q.2 && typeEqProps ps1 qs
termination_by l => sizeOf ps1 + sizeOf l
decreasing_by
all_goals
  first
  | (have hm := List.mem_of_find?_eq_some h
     have h1 := List.sizeOf_lt_of_mem hm
     obtain ⟨pn, pt⟩ := p
     obtain ⟨qn, qt⟩ := q
     simp_wf
     simp only [Prod.mk.sizeOf_spec] at h1
     omega)
  | (simp_wf; try omega)

end

mutual

/-- The subtyping relation of the subtyping variant: subType t1 t2 holds
when t1 is a subtype of t2.  Functions are contravariant in parameters
and covariant in the return type; records use width subtyping. -/
def subType (t1 t2 : Ty) : Bool :=
  match t2 with
  | .Boolean => match t1 with | .Boolean => true | _ => false
  | .Number => match t1 with | .Number => true | _ => false
  | .Func p2 r2 =>
    match t1 with
    | .Func p1 r1 => p1.length == p2.length && subTypeParams p1 p2 && subType r1 r2
    | _ => false
  | .Object ps2 =>
    match t1 with
    | .Object ps1 => subTypeProps ps1 ps2
    | _ => false
termination_by sizeOf t1 + sizeOf t2
decreasing_by all_goals (simp_wf; try omega)

/-- The parameter loop of subType: contravariant, the supertype's
parameter must be a subtype of the subtype's parameter. -/
def subTypeParams : List (String × Ty) → List (String × Ty) → Bool
| [], _ => true
| _ :: _, [] => true
| p :: ps, q :: qs => subType q.2 p.2 && subTypeParams ps qs
termination_by l1 l2 => sizeOf l1 + sizeOf l2
decreasing_by all_goals (obtain ⟨pn, pt⟩ := p; obtain ⟨qn, qt⟩ := q; simp_wf; omega)

/-- The field loop of subType: every field required by the supertype is
looked up by name in the subtype and must be covariantly related; extra
fields of the subtype are ignored (width subtyping). -/
def subTypeProps (ps1 : List (String × Ty)) : List (String × Ty) → Bool
| [] => true
| q :: qs =>
  match h : findProp ps1 q.1 with
  | none => false
  | some p => subType p.2 q.2 && subTypeProps ps1 qs
termination_by l => sizeOf ps1 + sizeOf l
decreasing_by
all_goals
  first
  | (have hm := List.mem_of_find?_eq_some h
     have h1 := List.sizeOf_lt_of_mem hm
     obtain ⟨pn, pt⟩ := p
     obtain ⟨qn, qt⟩ := q
     simp_wf
     simp only [Prod.mk.sizeOf_spec] at h1
     omega)
  | (simp_wf; try omega)

end

/-- The field-name uniqueness invariant of the data model: the field
names of one record type's field list are pairwise distinct. -/
def keysDistinct : List (String × Ty) → Bool
| [] => true
| p :: ps => ps.all (fun q => !(q.1 == p.1)) && keysDistinct ps

mutual

/-- wfTy T holds when every Object type inside T has pairwise distinct
field names, the invariant the data model imposes on record types. -/
def wfTy : Ty → Bool
| .Boolean => true
| .Number => true
| .Func ps r => wfTyList ps && wfTy r
| .Object ps => keysDistinct ps && wfTyList ps

/-- wfTy over a name/type list. -/
def wfTyList : List (String × Ty) → Bool
| [] => true
| p :: ps => wfTy p.2 && wfTyList ps

end

end STLC

namespace SubV

open STLC

/-- Terms of the subtyping variant: literals, addition, variables,
function literals, calls, sequencing, local bindings, record
construction, field projection and recursive function definitions. -/
inductive Term where
| ttrue : Term
| tfalse : Term
| number : Int → Term
| add : Term → Term → Term
| var : String → Term
| func : List (String × Ty) → Term → Term
| call : Term → List Term → Term
| seq : Term → Term → Term
| tconst : String → Term → Term → Term
| objectNew : List (String × Term) → Term
| objectGet : Term → String → Term
| recFunc : String → List (String × Ty) → Ty → Term → Term → Term

/-- Environment extension for a parameter list: each parameter is bound
in order, a later parameter overwriting an earlier one of the same name
(the source writes them into a copied record one by one). -/
def extendParams (env : TypeEnv) (ps : List (String × Ty)) : TypeEnv :=
  ps.foldl (fun e p => p :: e) env

mutual

/-- The type-checking driver of the subtyping variant.  Checked errors
are embedded as Except.error carrying the source's message. -/
def typecheck (t : Term) (env : TypeEnv) : Except String Ty :=
  match t with
  | .ttrue => .ok .Boolean
  | .tfalse => .ok .Boolean
  | .number _ => .ok .Number
  | .add l r =>
    match typecheck l env with
    | .error e => .error e
    | .ok lt =>
      match lt with
      | .Number =>
        match typecheck r env with
        | .error e => .error e
        | .ok rt =>
          match rt with
          | .Number => .ok .Number
          | _ => .error "number expected"
      | _ => .error "number expected"
  | .var x =>
    match lookupEnv env x with
    | none => .error ("unknown variable: " ++ x)
    | some ty => .ok ty
  | .func ps body =>
    match typecheck body (extendParams env ps) with
    | .error e => .error e
    | .ok r => .ok (.Func ps r)
  | .call f args =>
    match typecheck f env with
    | .error e => .error e
    | .ok fty =>
      match fty with
      | .Func ps r =>
        match ps.length == args.length with
        | true =>
          match checkArgs args ps env with
          | .error e => .error e
          | .ok _ => .ok r
        | false => .error "wrong number of arguments"
      | _ => .error "function type expected"
  | .seq b r =>
    match typecheck b env with
    | .error e => .error e
    | .ok _ => typecheck r env
  | .tconst x init rest =>
    match typecheck init env with
    | .error e => .error e
    | .ok ty => typecheck rest ((x, ty) :: env)
  | .objectNew props =>
    match checkProps props env with
    | .error e => .error e
    | .ok tps => .ok (.Object tps)
  | .objectGet obj pname =>
    match typecheck obj env with
    | .error e => .error e
    | .ok oty =>
      match oty with
      | .Object ps =>
        match findProp ps pname with
        | none => .error ("unknown property name: " ++ pname)
        | some p => .ok p.2
      | _ => .error "object type expected"
  | .recFunc fname ps rt body rest =>
    match typecheck body ((fname, .Func ps rt) :: extendParams env ps) with
    | .error e => .error e
    | .ok bt =>
      match typeEq rt bt with
      | true => typecheck rest ((fname, .Func ps rt) :: env)
      | false => .error "wrong return type"

/-- The argument loop of a call: each argument is checked and must be a
subtype of the declared parameter type (only reached with equal
lengths). -/
def checkArgs : List Term → List (String × Ty) → TypeEnv → Except String Unit
| [], _, _ => .ok ()
| _ :: _, [], _ => .ok ()
| a :: as, p :: ps, env =>
  match typecheck a env with
  | .error e => .error e
  | .ok aty =>
    match subType aty p.2 with
    | true => checkArgs as ps env
    | false => .error "parameter type mismatch"

/-- Record construction: each named field term is checked in order and
the first error propagates. -/
def checkProps : List (String × Term) → TypeEnv → Except String (List (String × Ty))
| [], _ => .ok []
| (n, tm) :: rest, env =>
  match typecheck tm env with
  | .error e => .error e
  | .ok ty =>
    match checkProps rest env with
    | .error e => .error e
    | .ok tps => .ok ((n, ty) :: tps)

end


end SubV

namespace RecFuncV

open STLC

/-- Terms of the recursive-function variant (it also has if/then/else). -/
inductive Term where
| ttrue : Term
| tfalse : Term
| tif : Term → Term → Term → Term
| number : Int → Term
| add : Term → Term → Term
| var : String → Term
| func : List (String × Ty) → Term → Term
| call : Term → List Term → Term
| seq : Term → Term → Term
| tconst : String → Term → Term → Term
| objectNew : List (String × Term) → Term
| objectGet : Term → String → Term
| recFunc : String → List (String × Ty) → Ty → Term → Term → Term

/-- Environment extension for a parameter list, later parameters
overwriting earlier ones of the same name. -/
def extendParams (env : TypeEnv) (ps : List (String × Ty)) : TypeEnv :=
  ps.foldl (fun e p => p :: e) env

mutual

/-- The type-checking driver of the recursive-function variant: call
sites compare the declared parameter type and the argument type with
typeEq (equality, not subtyping). -/
def typecheck (t : Term) (env : TypeEnv) : Except String Ty :=
  match t with
  | .ttrue => .ok .Boolean
  | .tfalse => .ok .Boolean
  | .tif cond thn els =>
    match typecheck cond env with
    | .error e => .error e
    | .ok cty =>
      match cty with
      | .Boolean =>
        match typecheck thn env with
        | .error e => .error e
        | .ok thnTy =>
          match typecheck els env with
          | .error e => .error e
          | .ok elsTy =>
            match typeEq thnTy elsTy with
            | true => .ok thnTy
            | false => .error "then and else have different types"
      | _ => .error "boolean expected"
  | .number _ => .ok .Number
  | .add l r =>
    match typecheck l env with
    | .error e => .error e
    | .ok lt =>
      match lt with
      | .Number =>
        match typecheck r env with
        | .error e => .error e
        | .ok rt =>
          match rt with
          | .Number => .ok .Number
          | _ => .error "number expected"
      | _ => .error "number expected"
  | .var x =>
    match lookupEnv env x with
    | none => .error ("unknown variable: " ++ x)
    | some ty => .ok ty
  | .func ps body =>
    match typecheck body (extendParams env ps) with
    | .error e => .error e
    | .ok r => .ok (.Func ps r)
  | .call f args =>
    match typecheck f env with
    | .error e => .error e
    | .ok fty =>
      match fty with
      | .Func ps r =>
        match ps.length == args.length with
        | true =>
          match checkArgsEq args ps env with
          | .error e => .error e
          | .ok _ => .ok r
        | false => .error "wrong number of arguments"
      | _ => .error "function type expected"
  | .seq b r =>
    match typecheck b env with
    | .error e => .error e
    | .ok _ => typecheck r env
  | .tconst x init rest =>
    match typecheck init env with
    | .error e => .error e
    | .ok ty => typecheck rest ((x, ty) :: env)
  | .objectNew props =>
    match checkPropsR props env with
    | .error e => .error e
    | .ok tps => .ok (.Object tps)
  | .objectGet obj pname =>
    match typecheck obj env with
    | .error e => .error e
    | .ok oty =>
      match oty with
      | .Object ps =>
        match findProp ps pname with
        | none => .error ("unknown property name: " ++ pname)
        | some p => .ok p.2
      | _ => .error "object type expected"
  | .recFunc fname ps rt body rest =>
    match typecheck body ((fname, .Func ps rt) :: extendParams env ps) with
    | .error e => .error e
    | .ok bt =>
      match typeEq rt bt with
      | true => typecheck rest ((fname, .Func ps rt) :: env)
      | false => .error "wrong return type"

/-- The argument loop of a call in the recursive-function variant: the
declared parameter type and the argument's type must be typeEq. -/
def checkArgsEq : List Term → List (String × Ty) → TypeEnv → Except String Unit
| [], _, _ => .ok ()
| _ :: _, [], _ => .ok ()
| a :: as, p :: ps, env =>
  match typecheck a env with
  | .error e => .error e
  | .ok aty =>
    match typeEq p.2 aty with
    | true => checkArgsEq as ps env
    | false => .error "parameter type mismatch"

/-- Record construction loop of the recursive-function variant. -/
def checkPropsR : List (String × Term) → TypeEnv → Except String (List (String × Ty))
| [], _ => .ok []
| (n, tm) :: rest, env =>
  match typecheck tm env with
  | .error e => .error e
  | .ok ty =>
    match checkPropsR rest env with
    | .error e => .error e
    | .ok tps => .ok ((n, ty) :: tps)

end

end RecFuncV

namespace RecT

/-- The type language of the equi-recursive-types variant: the shared
constructors plus Rec (a named binder over a body) and TypeVar (a
reference to an enclosing Rec binder). -/
inductive Ty where
| Boolean : Ty
| Number : Ty
| Func : List (String × Ty) → Ty → Ty
| Object : List (String × Ty) → Ty
| Rec : String → Ty → Ty
| TypeVar : String → Ty

abbrev TypeEnv := List (String × Ty)

/-- Lookup of a variable in a type environment (first match wins). -/
def lookupEnv (env : TypeEnv) (x : String) : Option Ty :=
  (env.find? (fun p => p.1 == x)).map (fun p => p.2)

/-- The source's props.find over a record's field list. -/
def findProp (props : List (String × Ty)) (n : String) : Option (String × Ty) :=
  props.find? (fun p => p.1 == n)

/-- Lookup in the binder-renaming map of typeEqNaive (first match wins,
modelling record overwrite). -/
def lookupName (m : List (String × String)) (x : String) : Option String :=
  (m.find? (fun p => p.1 == x)).map (fun p => p.2)

mutual

/-- The renaming-aware shape comparison typeEqNaive: structural equality
where Rec binder names are matched through an explicit renaming map.  A
TypeVar on the left whose name is not in the map raises an exception
(embedded as Except.error), exactly as the source throws. -/
def typeEqNaive (t1 t2 : Ty) (map : List (String × String)) : Except String Bool :=
  match t2 with
  | .Boolean => .ok (match t1 with | .Boolean => true | _ => false)
  | .Number => .ok (match t1 with | .Number => true | _ => false)
  | .Func p2 r2 =>
    match t1 with
    | .Func p1 r1 =>
      match typeEqNaiveParams p1 p2 map with
      | .error e => .error e
      | .ok false => .ok false
      | .ok true => typeEqNaive r1 r2 map
    | _ => .ok false
  | .Object ps2 =>
    match t1 with
    | .Object ps1 =>
      match ps1.length == ps2.length with
      | true => typeEqNaiveProps ps1 ps2 map
      | false => .ok false
    | _ => .ok false
  | .Rec n2 b2 =>
    match t1 with
    | .Rec n1 b1 => typeEqNaive b1 b2 ((n1, n2) :: map)
    | _ => .ok false
  | .TypeVar n2 =>
    match t1 with
    | .TypeVar n1 =>
      match lookupName map n1 with
      | none => .error ("unknown type variable: " ++ n1)
      | some m1 => .ok (m1 == n2)
    | _ => .ok false

/-- The parameter loop of typeEqNaive.  The source omits the length
check on parameter lists, so when the left list is longer the indexed
access on the right list crashes (embedded as an error). -/
def typeEqNaiveParams : List (String × Ty) → List (String × Ty) → List (String × String) → Except String Bool
| [], _, _ => .ok true
| _ :: _, [], _ => .error "TypeError: cannot read properties of undefined"
| p :: ps, q :: qs, map =>
  match typeEqNaive p.2 q.2 map with
  | .error e => .error e
  | .ok false => .ok false
  | .ok true => typeEqNaiveParams ps qs map

/-- The field loop of typeEqNaive: iterates the left record's fields and
looks each one up by name in the right record. -/
def typeEqNaiveProps : List (String × Ty) → List (String × Ty) → List (String × String) → Except String Bool
| [], _, _ => .ok true
| p :: ps, qs, map =>
  match findProp qs p.1 with
  | none => .ok false
  | some q =>
    match typeEqNaive p.2 q.2 map with
    | .error e => .error e
    | .ok false => .ok false
    | .ok true => typeEqNaiveProps ps qs map

end

mutual

/-- expandType ty x rep replaces every TypeVar named x in ty by rep,
not descending into a Rec that rebinds the same name (shadowing), i.e.
capture-avoiding substitution. -/
def expandType (ty : Ty) (x : String) (rep : Ty) : Ty :=
  match ty with
  | .Boolean => .Boolean
  | .Number => .Number
  | .Func ps r => .Func (expandTypeList ps x rep) (expandType r x rep)
  | .Object ps => .Object (expandTypeList ps x rep)
  | .Rec n b =>
    match n == x with
    | true => .Rec n b
    | false => .Rec n (expandType b x rep)
  | .TypeVar n =>
    match n == x with
    | true => rep
    | false => .TypeVar n

/-- expandType mapped over a parameter or field list. -/
def expandTypeList : List (String × Ty) → String → Ty → List (String × Ty)
| [], _, _ => []
| p :: ps, x, rep => (p.1, expandType p.2 x rep) :: expandTypeList ps x rep

end

/-- simplifyType repeatedly unfolds a Rec-headed type (substituting the
whole Rec node for its binder in its body) until the head is not a Rec;
other types are returned unchanged.  The source's recursion does not
terminate on every input, so the embedding carries fuel: none means the
fuel ran out. -/
def simplifyType : Nat → Ty → Option Ty
| 0, _ => none
| n + 1, .Rec a b => simplifyType n (expandType b a (.Rec a b))
| _ + 1, .Boolean => some .Boolean
| _ + 1, .Number => some .Number
| _ + 1, .Func ps r => some (.Func ps r)
| _ + 1, .Object ps => some (.Object ps)
| _ + 1, .TypeVar n => some (.TypeVar n)

/-- The seen-membership loop of typeEqSub: a pair of the seen list
matches when both components are typeEqNaive-equal (with a fresh empty
renaming map) to the current pair; an exception from typeEqNaive
propagates. -/
def seenCheck : List (Ty × Ty) → Ty → Ty → Except String Bool
| [], _, _ => .ok false
| (a, b) :: rest, t1, t2 =>
  match typeEqNaive a t1 [] with
  | .error e => .error e
  | .ok false => seenCheck rest t1 t2
  | .ok true =>
    match typeEqNaive b t2 [] with
    | .error e => .error e
    | .ok false => seenCheck rest t1 t2
    | .ok true => .ok true

mutual

/-- typeEqSub: equality of possibly recursive types.  The seen list
collects already-assumed-equal pairs; a Rec on either side is unfolded
through simplifyType after recording the pair.  Fuel bounds the
recursion depth (every recursive call of the group consumes one unit);
none means the fuel ran out, which for every fuel value corresponds to
non-termination of the source. -/
def typeEqSub : Nat → Ty → Ty → List (Ty × Ty) → Option (Except String Bool)
| 0, _, _, _ => none
| n + 1, t1, t2, seen =>
  match seenCheck seen t1 t2 with
  | .error e => some (.error e)
  | .ok true => some (.ok true)
  | .ok false =>
    match t1, t2 with
    | .Rec a b, _ =>
      match simplifyType (n + 1) (.Rec a b) with
      | none => none
      | some t1s => typeEqSub n t1s t2 (seen ++ [(.Rec a b, t2)])
    | _, .Rec a b =>
      match simplifyType (n + 1) (.Rec a b) with
      | none => none
      | some t2s => typeEqSub n t1 t2s (seen ++ [(t1, .Rec a b)])
    | _, .Boolean => some (.ok (match t1 with | .Boolean => true | _ => false))
    | _, .Number => some (.ok (match t1 with | .Number => true | _ => false))
    | _, .Func p2 r2 =>
      match t1 with
      | .Func p1 r1 =>
        match p1.length == p2.length with
        | true =>
          match typeEqSubParams n p1 p2 seen with
          | none => none
          | some (.error e) => some (.error e)
          | some (.ok false) => some (.ok false)
          | some (.ok true) => typeEqSub n r1 r2 seen
        | false => some (.ok false)
      | _ => some (.ok false)
    | _, .Object ps2 =>
      match t1 with
      | .Object ps1 =>
        match ps1.length == ps2.length with
        | true => typeEqSubProps n ps1 ps2 seen
        | false => some (.ok false)
      | _ => some (.ok false)
    | _, .TypeVar _ => some (.error "unreachable")

/-- The parameter loop of typeEqSub (positional; lengths pre-checked). -/
def typeEqSubParams : Nat → List (String × Ty) → List (String × Ty) → List (Ty × Ty) → Option (Except String Bool)
| 0, _, _, _ => none
| _ + 1, [], _, _ => some (.ok true)
| _ + 1, _ :: _, [], _ => some (.ok true)
| n + 1, p :: ps, q :: qs, seen =>
  match typeEqSub n p.2 q.2 seen with
  | none => none
  | some (.error e) => some (.error e)
  | some (.ok false) => some (.ok false)
  | some (.ok true) => typeEqSubParams n ps qs seen

/-- The field loop of typeEqSub: iterates the right record's fields and
looks each one up by name in the left record. -/
def typeEqSubProps : Nat → List (String × Ty) → List (String × Ty) → List (Ty × Ty) → Option (Except String Bool)
| 0, _, _, _ => none
| _ + 1, _, [], _ => some (.ok true)
| n + 1, ps1, q :: qs, seen =>
  match findProp ps1 q.1 with
  | none => some (.ok false)
  | some p =>
    match typeEqSub n p.2 q.2 seen with
    | none => none
    | some (.error e) => some (.error e)
    | some (.ok false) => some (.ok false)
    | some (.ok true) => typeEqSubProps n ps1 qs seen

end

/-- The source's typeEq: typeEqSub started with an empty seen list. -/
def typeEq (n : Nat) (t1 t2 : Ty) : Option (Except String Bool) :=
  typeEqSub n t1 t2 []

/-- typeEq diverges on the pair: for every fuel the fueled embedding
runs out, corresponding to non-termination of the source. -/
def typeEqDiverges (t1 t2 : Ty) : Prop :=
  ∀ n : Nat, typeEq n t1 t2 = none

/-- typeEq never returns true on the pair, at any fuel. -/
def typeEqNeverTrue (t1 t2 : Ty) : Prop :=
  ∀ n : Nat, typeEq n t1 t2 ≠ some (.ok true)

/-- Pairwise distinctness of the field names of one field list. -/
def keysDistinctR : List (String × Ty) → Bool
| [] => true
| p :: ps => ps.all (fun q => !(q.1 == p.1)) && keysDistinctR ps

mutual

/-- ground t: t contains no Rec and no TypeVar node.  A closed type
with no Rec node can mention no TypeVar either, since every TypeVar
must be bound by an enclosing Rec binder. -/
def ground : Ty → Bool
| .Boolean => true
| .Number => true
| .Func ps r => groundList ps && ground r
| .Object ps => groundList ps
| .Rec _ _ => false
| .TypeVar _ => false

/-- ground over a name/type list. -/
def groundList : List (String × Ty) → Bool
| [] => true
| p :: ps => ground p.2 && groundList ps

end

mutual

/-- nodupObjs t: every Object node inside t has pairwise distinct field
names (the data model invariant on record types). -/
def nodupObjs : Ty → Bool
| .Boolean => true
| .Number => true
| .Func ps r => nodupObjsList ps && nodupObjs r
| .Object ps => keysDistinctR ps && nodupObjsList ps
| .Rec _ b => nodupObjs b
| .TypeVar _ => true

/-- nodupObjs over a name/type list. -/
def nodupObjsList : List (String × Ty) → Bool
| [] => true
| p :: ps => nodupObjs p.2 && nodupObjsList ps

end

/-- Terms of the equi-recursive-types variant. -/
inductive Term where
| ttrue : Term
| tfalse : Term
| tif : Term → Term → Term → Term
| number : Int → Term
| add : Term → Term → Term
| var : String → Term
| func : List (String × Ty) → Term → Term
| call : Term → List Term → Term
| seq : Term → Term → Term
| tconst : String → Term → Term → Term
| objectNew : List (String × Term) → Term
| objectGet : Term → String → Term
| recFunc : String → List (String × Ty) → Ty → Term → Term → Term

/-- Environment extension for a parameter list, later parameters
overwriting earlier ones of the same name. -/
def extendParams (env : TypeEnv) (ps : List (String × Ty)) : TypeEnv :=
  ps.foldl (fun e p => p :: e) env

mutual

/-- The type-checking driver of the equi-recursive-types variant.  Every
type that is inspected by tag (condition, operands, callee, projected
object) first goes through simplifyType; call arguments and the
recursive-function return type are compared with typeEq.  The fuel is
passed to those auxiliary functions; the recursion over the term itself
is structural. -/
def typecheck (n : Nat) (t : Term) (env : TypeEnv) : Option (Except String Ty) :=
  match t with
  | .ttrue => some (.ok .Boolean)
  | .tfalse => some (.ok .Boolean)
  | .tif cond thn els =>
    match typecheck n cond env with
    | none => none
    | some (.error e) => some (.error e)
    | some (.ok cty) =>
      match simplifyType n cty with
      | none => none
      | some ctys =>
        match ctys with
        | .Boolean =>
          match typecheck n thn env with
          | none => none
          | some (.error e) => some (.error e)
          | some (.ok thnTy) =>
            match typecheck n els env with
            | none => none
            | some (.error e) => some (.error e)
            | some (.ok elsTy) =>
              match typeEq n thnTy elsTy with
              | none => none
              | some (.error e) => some (.error e)
              | some (.ok true) => some (.ok thnTy)
              | some (.ok false) => some (.error "then and else have different types")
        | _ => some (.error "boolean expected")
  | .number _ => some (.ok .Number)
  | .add l r =>
    match typecheck n l env with
    | none => none
    | some (.error e) => some (.error e)
    | some (.ok lt) =>
      match simplifyType n lt with
      | none => none
      | some lts =>
        match lts with
        | .Number =>
          match typecheck n r env with
          | none => none
          | some (.error e) => some (.error e)
          | some (.ok rt) =>
            match simplifyType n rt with
            | none => none
            | some rts =>
              match rts with
              | .Number => some (.ok .Number)
              | _ => some (.error "number expected")
        | _ => some (.error "number expected")
  | .var x =>
    match lookupEnv env x with
    | none => some (.error ("unknown variable: " ++ x))
    | some ty => some (.ok ty)
  | .func ps body =>
    match typecheck n body (extendParams env ps) with
    | none => none
    | some (.error e) => some (.error e)
    | some (.ok r) => some (.ok (.Func ps r))
  | .call f args =>
    match typecheck n f env with
    | none => none
    | some (.error e) => some (.error e)
    | some (.ok fty0) =>
      match simplifyType n fty0 with
      | none => none
      | some fty =>
        match fty with
        | .Func ps r =>
          match ps.length == args.length with
          | true =>
            match checkArgsT n args ps env with
            | none => none
            | some (.error e) => some (.error e)
            | some (.ok _) => some (.ok r)
          | false => some (.error "wrong number of arguments")
        | _ => some (.error "function type expected")
  | .seq b r =>
    match typecheck n b env with
    | none => none
    | some (.error e) => some (.error e)
    | some (.ok _) => typecheck n r env
  | .tconst x init rest =>
    match typecheck n init env with
    | none => none
    | some (.error e) => some (.error e)
    | some (.ok ty) => typecheck n rest ((x, ty) :: env)
  | .objectNew props =>
    match checkPropsT n props env with
    | none => none
    | some (.error e) => some (.error e)
    | some (.ok tps) => some (.ok (.Object tps))
  | .objectGet obj pname =>
    match typecheck n obj env with
    | none => none
    | some (.error e) => some (.error e)
    | some (.ok oty0) =>
      match simplifyType n oty0 with
      | none => none
      | some oty =>
        match oty with
        | .Object ps =>
          match findProp ps pname with
          | none => some (.error ("unknown property name: " ++ pname))
          | some p => some (.ok p.2)
        | _ => some (.error "object type expected")
  | .recFunc fname ps rt body rest =>
    match typecheck n body ((fname, .Func ps rt) :: extendParams env ps) with
    | none => none
    | some (.error e) => some (.error e)
    | some (.ok bt) =>
      match typeEq n rt bt with
      | none => none
      | some (.error e) => some (.error e)
      | some (.ok true) => typecheck n rest ((fname, .Func ps rt) :: env)
      | some (.ok false) => some (.error "wrong return type")

/-- The argument loop of a call in the equi-recursive-types variant:
the declared parameter type and the argument's type must be typeEq. -/
def checkArgsT : Nat → List Term → List (String × Ty) → TypeEnv → Option (Except String Unit)
| _, [], _, _ => some (.ok ())
| _, _ :: _, [], _ => some (.ok ())
| n, a :: as, p :: ps, env =>
  match typecheck n a env with
  | none => none
  | some (.error e) => some (.error e)
  | some (.ok aty) =>
    match typeEq n p.2 aty with
    | none => none
    | some (.error e) => some (.error e)
    | some (.ok true) => checkArgsT n as ps env
    | some (.ok false) => some (.error "parameter type mismatch")

/-- Record construction loop of the equi-recursive-types variant. -/
def checkPropsT : Nat → List (String × Term) → TypeEnv → Option (Except String (List (String × Ty)))
| _, [], _ => some (.ok [])
| n, (nm, tm) :: rest, env =>
  match typecheck n tm env with
  | none => none
  | some (.error e) => some (.error e)
  | some (.ok ty) =>
    match checkPropsT n rest env with
    | none => none
    | some (.error e) => some (.error e)
    | some (.ok tps) => some (.ok ((nm, ty) :: tps))

end


end RecT

/-! ### Helper lemmas -/

namespace STLC

lemma stlc_findProp_mem {ps : List (String × Ty)} {n : String} {p : String × Ty}
    (h : findProp ps n = some p) : p ∈ ps ∧ p.1 = n := by
  refine ⟨List.mem_of_find?_eq_some h, ?_⟩
  have := List.find?_some h
  simpa using this

lemma stlc_wfTyList_mem {ps : List (String × Ty)} (h : wfTyList ps = true)
    {p : String × Ty} (hp : p ∈ ps) : wfTy p.2 = true := by
  induction ps with
  | nil => cases hp
  | cons a as ih =>
    simp only [wfTyList, Bool.and_eq_true] at h
    rcases List.mem_cons.mp hp with h1 | h1
    · subst h1; exact h.1
    · exact ih h.2 h1

lemma stlc_findProp_self {ps : List (String × Ty)} (hd : keysDistinct ps = true)
    {q : String × Ty} (hq : q ∈ ps) : findProp ps q.1 = some q := by
  induction ps with
  | nil => cases hq
  | cons a as ih =>
    simp only [keysDistinct, Bool.and_eq_true, List.all_eq_true] at hd
    rcases List.mem_cons.mp hq with h1 | h1
    · subst h1
      simp [findProp, List.find?]
    · have hne : (q.1 == a.1) = false := by
        have := hd.1 q h1
        simpa using this
      have hne2 : (a.1 == q.1) = false := by
        rw [beq_eq_false_iff_ne] at hne ⊢
        exact fun heq => hne heq.symm
      simp only [findProp, List.find?, hne2]
      exact ih hd.2 h1

lemma subTypeProps_iff {ps1 ps2 : List (String × Ty)} :
    subTypeProps ps1 ps2 = true ↔
      ∀ q ∈ ps2, ∃ p, findProp ps1 q.1 = some p ∧ subType p.2 q.2 = true := by
  induction ps2 with
  | nil => simp [subTypeProps]
  | cons q qs ih =>
    rw [subTypeProps]
    cases h : findProp ps1 q.1 with
    | none =>
      simp only [List.mem_cons]
      constructor
      · intro hfalse; cases hfalse
      · intro hall
        rcases hall q (Or.inl rfl) with ⟨p, hp, _⟩
        rw [h] at hp; cases hp
    | some p =>
      rw [Bool.and_eq_true, ih]
      constructor
      · rintro ⟨hpq, hrest⟩
        intro q2 hq2
        rcases List.mem_cons.mp hq2 with h1 | h1
        · subst h1; exact ⟨p, h, hpq⟩
        · exact hrest q2 h1
      · intro hall
        constructor
        · rcases hall q (List.mem_cons.mpr (Or.inl rfl)) with ⟨p2, hp2, hs2⟩
          rw [h] at hp2
          cases hp2
          exact hs2
        · intro q2 hq2
          exact hall q2 (List.mem_cons.mpr (Or.inr hq2))

lemma subTypeParams_self {ps : List (String × Ty)}
    (h : ∀ p ∈ ps, subType p.2 p.2 = true) : subTypeParams ps ps = true := by
  induction ps with
  | nil => rw [subTypeParams]
  | cons p ps ih =>
    rw [subTypeParams, Bool.and_eq_true]
    exact ⟨h p (List.mem_cons.mpr (Or.inl rfl)),
           ih (fun q hq => h q (List.mem_cons.mpr (Or.inr hq)))⟩

lemma stlc_sizeOf_snd_lt {ps : List (String × Ty)} {p : String × Ty} (hp : p ∈ ps) :
    sizeOf p.2 < sizeOf ps := by
  have h1 := List.sizeOf_lt_of_mem hp
  obtain ⟨a, b⟩ := p
  simp only [Prod.mk.sizeOf_spec] at h1
  simp only []
  omega

/-- Reflexivity of subType on types satisfying the field-name
uniqueness invariant, by strong induction on size. -/
lemma subType_refl_sized : ∀ (k : Nat) (t : Ty), sizeOf t < k → wfTy t = true → subType t t = true := by
  intro k
  induction k with
  | zero => intro t h; omega
  | succ k ih =>
    intro t hlt hwf
    match t with
    | .Boolean => rw [subType]
    | .Number => rw [subType]
    | .Func ps r =>
      rw [wfTy, Bool.and_eq_true] at hwf
      have hsz : sizeOf ps < sizeOf (Ty.Func ps r) := by simp; try omega
      have hszr : sizeOf r < sizeOf (Ty.Func ps r) := by simp; try omega
      have hps : subTypeParams ps ps = true := by
        apply subTypeParams_self
        intro p hp
        have h2 := stlc_sizeOf_snd_lt hp
        exact ih p.2 (by omega) (stlc_wfTyList_mem hwf.1 hp)
      have hr : subType r r = true := ih r (by omega) hwf.2
      rw [subType]
      simp [hps, hr]
    | .Object ps =>
      rw [wfTy, Bool.and_eq_true] at hwf
      have hsz : sizeOf ps < sizeOf (Ty.Object ps) := by simp; try omega
      rw [subType, subTypeProps_iff]
      intro q hq
      refine ⟨q, stlc_findProp_self hwf.1 hq, ?_⟩
      have h2 := stlc_sizeOf_snd_lt hq
      exact ih q.2 (by omega) (stlc_wfTyList_mem hwf.2 hq)

lemma subType_Boolean_iff {t : Ty} : subType t .Boolean = true ↔ t = .Boolean := by
  cases t <;> simp [subType]

lemma subType_Number_iff {t : Ty} : subType t .Number = true ↔ t = .Number := by
  cases t <;> simp [subType]

lemma subType_Func_iff {t : Ty} {p2 : List (String × Ty)} {r2 : Ty} :
    subType t (.Func p2 r2) = true ↔
      ∃ p1 r1, t = .Func p1 r1 ∧ p1.length = p2.length ∧
        subTypeParams p1 p2 = true ∧ subType r1 r2 = true := by
  constructor
  · intro h
    match t with
    | .Func p1 r1 =>
      simp only [subType, Bool.and_eq_true, beq_iff_eq] at h
      exact ⟨p1, r1, rfl, h.1.1, h.1.2, h.2⟩
    | .Boolean => simp [subType] at h
    | .Number => simp [subType] at h
    | .Object ps => simp [subType] at h
  · rintro ⟨p1, r1, rfl, hlen, hpar, hret⟩
    rw [subType]
    simp [hlen, hpar, hret]

lemma subType_Object_iff {t : Ty} {ps2 : List (String × Ty)} :
    subType t (.Object ps2) = true ↔
      ∃ ps1, t = .Object ps1 ∧ subTypeProps ps1 ps2 = true := by
  cases t <;> simp [subType]

lemma subTypeParams_chain {k : Nat}
    (ih : ∀ a b c : Ty, sizeOf a + sizeOf b + sizeOf c < k →
          subType a b = true → subType b c = true → subType a c = true) :
    ∀ pA pB pC : List (String × Ty),
      sizeOf pA + sizeOf pB + sizeOf pC < k →
      subTypeParams pA pB = true → subTypeParams pB pC = true →
      pA.length = pB.length → pB.length = pC.length →
      subTypeParams pA pC = true := by
  intro pA
  induction pA with
  | nil => intro pB pC _ _ _ _ _; rw [subTypeParams]
  | cons a as ihl =>
    intro pB pC hsz h1 h2 hl1 hl2
    match pB, pC with
    | [], _ => simp at hl1
    | _ :: _, [] => simp at hl2
    | b :: bs, c :: cs =>
      rw [subTypeParams, Bool.and_eq_true] at h1 h2 ⊢
      have hsza : sizeOf a.2 < sizeOf a := by obtain ⟨a1, a2⟩ := a; simp; try omega
      have hszb : sizeOf b.2 < sizeOf b := by obtain ⟨b1, b2⟩ := b; simp; try omega
      have hszc : sizeOf c.2 < sizeOf c := by obtain ⟨c1, c2⟩ := c; simp; try omega
      have hszl : sizeOf a + sizeOf as + (sizeOf b + sizeOf bs) + (sizeOf c + sizeOf cs) < k := by
        simp only [List.cons.sizeOf_spec] at hsz
        omega
      constructor
      · exact ih c.2 b.2 a.2 (by omega) h2.1 h1.1
      · exact ihl bs cs (by omega) h1.2 h2.2 (by simpa using hl1) (by simpa using hl2)

lemma subTypeProps_chain {k : Nat}
    (ih : ∀ a b c : Ty, sizeOf a + sizeOf b + sizeOf c < k →
          subType a b = true → subType b c = true → subType a c = true) :
    ∀ psA psB psC : List (String × Ty),
      sizeOf psA + sizeOf psB + sizeOf psC < k →
      subTypeProps psA psB = true → subTypeProps psB psC = true →
      subTypeProps psA psC = true := by
  intro psA psB psC hsz h1 h2
  rw [subTypeProps_iff] at h1 h2 ⊢
  intro q hq
  rcases h2 q hq with ⟨b, hfb, hsb⟩
  have hbmem := (stlc_findProp_mem hfb).1
  have hbname := (stlc_findProp_mem hfb).2
  rcases h1 b hbmem with ⟨a, hfa, hsa⟩
  refine ⟨a, ?_, ?_⟩
  · rw [hbname] at hfa; exact hfa
  · have h1a : sizeOf a.2 < sizeOf psA := stlc_sizeOf_snd_lt (stlc_findProp_mem hfa).1
    have h1b : sizeOf b.2 < sizeOf psB := stlc_sizeOf_snd_lt hbmem
    have h1q : sizeOf q.2 < sizeOf psC := stlc_sizeOf_snd_lt hq
    exact ih a.2 b.2 q.2 (by omega) hsa hsb

/-- Transitivity of subType, by strong induction on the total size of
the three types. -/
lemma subType_trans_sized : ∀ (k : Nat) (a b c : Ty),
    sizeOf a + sizeOf b + sizeOf c < k →
    subType a b = true → subType b c = true → subType a c = true := by
  intro k
  induction k with
  | zero => intro a b c h; omega
  | succ k ih =>
    intro a b c hsz h1 h2
    match c with
    | .Boolean =>
      rw [subType_Boolean_iff] at h2
      subst h2
      exact h1
    | .Number =>
      rw [subType_Number_iff] at h2
      subst h2
      exact h1
    | .Func pC rC =>
      rcases subType_Func_iff.mp h2 with ⟨pB, rB, hb, hlBC, hparBC, hretBC⟩
      subst hb
      rcases subType_Func_iff.mp h1 with ⟨pA, rA, ha, hlAB, hparAB, hretAB⟩
      subst ha
      rw [subType_Func_iff]
      refine ⟨pA, rA, rfl, by omega, ?_, ?_⟩
      · have hszs : sizeOf pA + sizeOf pB + sizeOf pC < k := by
          simp only [Ty.Func.sizeOf_spec] at hsz
          omega
        exact subTypeParams_chain (fun x y z hxyz => ih x y z (by omega)) pA pB pC hszs hparAB hparBC hlAB hlBC
      · have hszr : sizeOf rA + sizeOf rB + sizeOf rC < k := by
          simp only [Ty.Func.sizeOf_spec] at hsz
          omega
        exact ih rA rB rC (by omega) hretAB hretBC
    | .Object psC =>
      rcases subType_Object_iff.mp h2 with ⟨psB, hb, hpropsBC⟩
      subst hb
      rcases subType_Object_iff.mp h1 with ⟨psA, ha, hpropsAB⟩
      subst ha
      rw [subType_Object_iff]
      refine ⟨psA, rfl, ?_⟩
      have hszs : sizeOf psA + sizeOf psB + sizeOf psC < k := by
        simp only [Ty.Object.sizeOf_spec] at hsz
        omega
      exact subTypeProps_chain (fun x y z hxyz => ih x y z (by omega)) psA psB psC hszs hpropsAB hpropsBC

end STLC

namespace SubV

open STLC

lemma checkArgs_ok_iff : ∀ (args : List Term) (ps : List (String × Ty)) (env : TypeEnv),
    checkArgs args ps env = .ok () ↔
      ∀ pr ∈ args.zip ps, ∃ aty, typecheck pr.1 env = .ok aty ∧ subType aty pr.2.2 = true := by
  intro args
  induction args with
  | nil => intro ps env; simp [checkArgs]
  | cons a as ih =>
    intro ps env
    match ps with
    | [] => simp [checkArgs]
    | p :: ps =>
      cases hta : typecheck a env with
      | error e =>
        simp only [checkArgs, hta, List.zip_cons_cons, List.mem_cons]
        constructor
        · intro h; cases h
        · intro hall
          rcases hall (a, p) (Or.inl rfl) with ⟨aty, hok, _⟩
          rw [hta] at hok; cases hok
      | ok aty =>
        cases hs : subType aty p.2 with
        | false =>
          simp only [checkArgs, hta, hs, List.zip_cons_cons, List.mem_cons]
          constructor
          · intro h; cases h
          · intro hall
            rcases hall (a, p) (Or.inl rfl) with ⟨aty2, hok, hsub⟩
            rw [hta] at hok
            cases hok
            rw [hs] at hsub
            cases hsub
        | true =>
          simp only [checkArgs, hta, hs, List.zip_cons_cons, List.mem_cons]
          rw [ih ps env]
          constructor
          · intro hrest
            intro pr hpr
            rcases hpr with h1 | h1
            · subst h1; exact ⟨aty, hta, hs⟩
            · exact hrest pr h1
          · intro hall pr hpr
            exact hall pr (Or.inr hpr)

lemma subv_extendParams_eq_append (env : TypeEnv) (ps : List (String × Ty)) :
    extendParams env ps = ps.reverse ++ env := by
  induction ps generalizing env with
  | nil => rfl
  | cons p ps ih =>
    show extendParams (p :: env) ps = (p :: ps).reverse ++ env
    rw [ih]
    simp

lemma subv_lookup_extendParams (env : TypeEnv) (ps : List (String × Ty)) (x : String) :
    lookupEnv (extendParams env ps) x =
      match ps.reverse.find? (fun p => p.1 == x) with
      | some p => some p.2
      | none => lookupEnv env x := by
  rw [subv_extendParams_eq_append]
  rw [lookupEnv, List.find?_append]
  cases h : ps.reverse.find? (fun p => p.1 == x) with
  | none => simp [lookupEnv]
  | some p => simp

end SubV

namespace RecT

lemma rect_findProp_mem {ps : List (String × Ty)} {n : String} {p : String × Ty}
    (h : findProp ps n = some p) : p ∈ ps ∧ p.1 = n := by
  refine ⟨List.mem_of_find?_eq_some h, ?_⟩
  have := List.find?_some h
  simpa using this

lemma rect_groundList_mem {ps : List (String × Ty)} (h : groundList ps = true)
    {p : String × Ty} (hp : p ∈ ps) : ground p.2 = true := by
  induction ps with
  | nil => cases hp
  | cons a as ih =>
    simp only [groundList, Bool.and_eq_true] at h
    rcases List.mem_cons.mp hp with h1 | h1
    · subst h1; exact h.1
    · exact ih h.2 h1

lemma rect_nodupList_mem {ps : List (String × Ty)} (h : nodupObjsList ps = true)
    {p : String × Ty} (hp : p ∈ ps) : nodupObjs p.2 = true := by
  induction ps with
  | nil => cases hp
  | cons a as ih =>
    simp only [nodupObjsList, Bool.and_eq_true] at h
    rcases List.mem_cons.mp hp with h1 | h1
    · subst h1; exact h.1
    · exact ih h.2 h1

lemma rect_findProp_self {ps : List (String × Ty)} (hd : keysDistinctR ps = true)
    {q : String × Ty} (hq : q ∈ ps) : findProp ps q.1 = some q := by
  induction ps with
  | nil => cases hq
  | cons a as ih =>
    simp only [keysDistinctR, Bool.and_eq_true, List.all_eq_true] at hd
    rcases List.mem_cons.mp hq with h1 | h1
    · subst h1
      simp [findProp, List.find?]
    · have hne : (q.1 == a.1) = false := by
        have := hd.1 q h1
        simpa using this
      have hne2 : (a.1 == q.1) = false := by
        rw [beq_eq_false_iff_ne] at hne ⊢
        exact fun heq => hne heq.symm
      simp only [findProp, List.find?, hne2]
      exact ih hd.2 h1

lemma simplify_mono : ∀ (n : Nat) (t u : Ty),
    simplifyType n t = some u → simplifyType (n + 1) t = some u := by
  intro n
  induction n with
  | zero => intro t u h; simp [simplifyType] at h
  | succ n ih =>
    intro t u h
    match t with
    | .Rec a b =>
      rw [simplifyType] at h ⊢
      exact ih _ u h
    | .Boolean => exact h
    | .Number => exact h
    | .Func ps r => exact h
    | .Object ps => exact h
    | .TypeVar x => exact h

lemma typeEqSub_succ (n : Nat) (t1 t2 : Ty) (seen : List (Ty × Ty)) :
    typeEqSub (n + 1) t1 t2 seen =
      (match seenCheck seen t1 t2 with
      | .error e => some (.error e)
      | .ok true => some (.ok true)
      | .ok false =>
        match t1, t2 with
        | .Rec a b, _ =>
          match simplifyType (n + 1) (.Rec a b) with
          | none => none
          | some t1s => typeEqSub n t1s t2 (seen ++ [(.Rec a b, t2)])
        | _, .Rec a b =>
          match simplifyType (n + 1) (.Rec a b) with
          | none => none
          | some t2s => typeEqSub n t1 t2s (seen ++ [(t1, .Rec a b)])
        | _, .Boolean => some (.ok (match t1 with | .Boolean => true | _ => false))
        | _, .Number => some (.ok (match t1 with | .Number => true | _ => false))
        | _, .Func p2 r2 =>
          match t1 with
          | .Func p1 r1 =>
            match p1.length == p2.length with
            | true =>
              match typeEqSubParams n p1 p2 seen with
              | none => none
              | some (.error e) => some (.error e)
              | some (.ok false) => some (.ok false)
              | some (.ok true) => typeEqSub n r1 r2 seen
            | false => some (.ok false)
          | _ => some (.ok false)
        | _, .Object ps2 =>
          match t1 with
          | .Object ps1 =>
            match ps1.length == ps2.length with
            | true => typeEqSubProps n ps1 ps2 seen
            | false => some (.ok false)
          | _ => some (.ok false)
        | _, .TypeVar _ => some (.error "unreachable")) := rfl

lemma typeEqSub_mono_step : ∀ (n : Nat),
    (∀ t1 t2 seen r, typeEqSub n t1 t2 seen = some r → typeEqSub (n + 1) t1 t2 seen = some r) ∧
    (∀ p1 p2 seen r, typeEqSubParams n p1 p2 seen = some r → typeEqSubParams (n + 1) p1 p2 seen = some r) ∧
    (∀ ps1 ps2 seen r, typeEqSubProps n ps1 ps2 seen = some r → typeEqSubProps (n + 1) ps1 ps2 seen = some r) := by
  intro n
  induction n with
  | zero =>
    refine ⟨?_, ?_, ?_⟩ <;>
      (intro a b c r h; simp [typeEqSub, typeEqSubParams, typeEqSubProps] at h)
  | succ n ih =>
    obtain ⟨ihS, ihP, ihQ⟩ := ih
    refine ⟨?_, ?_, ?_⟩
    · intro t1 t2 seen r h
      rw [typeEqSub_succ] at h ⊢
      cases hs : seenCheck seen t1 t2 with
      | error e => simp only [hs] at h ⊢; exact h
      | ok b0 =>
        cases b0 with
        | true => simp only [hs] at h ⊢; exact h
        | false =>
          simp only [hs] at h ⊢
          cases t1 with
          | Rec a bb =>
            cases hsim : simplifyType (n + 1) (.Rec a bb) with
            | none => simp only [hsim] at h; cases h
            | some t1s =>
              simp only [hsim] at h
              simp only [simplify_mono _ _ _ hsim]
              exact ihS _ _ _ _ h
          | Boolean =>
            cases t2 with
            | Rec a2 b2 =>
              cases hsim : simplifyType (n + 1) (.Rec a2 b2) with
              | none => simp only [hsim] at h; cases h
              | some t2s =>
                simp only [hsim] at h
                simp only [simplify_mono _ _ _ hsim]
                exact ihS _ _ _ _ h
            | Boolean => exact h
            | Number => exact h
            | Func p2 r2 => exact h
            | Object ps2 => exact h
            | TypeVar x2 => exact h
          | Number =>
            cases t2 with
            | Rec a2 b2 =>
              cases hsim : simplifyType (n + 1) (.Rec a2 b2) with
              | none => simp only [hsim] at h; cases h
              | some t2s =>
                simp only [hsim] at h
                simp only [simplify_mono _ _ _ hsim]
                exact ihS _ _ _ _ h
            | Boolean => exact h
            | Number => exact h
            | Func p2 r2 => exact h
            | Object ps2 => exact h
            | TypeVar x2 => exact h
          | TypeVar x1 =>
            cases t2 with
            | Rec a2 b2 =>
              cases hsim : simplifyType (n + 1) (.Rec a2 b2) with
              | none => simp only [hsim] at h; cases h
              | some t2s =>
                simp only [hsim] at h
                simp only [simplify_mono _ _ _ hsim]
                exact ihS _ _ _ _ h
            | Boolean => exact h
            | Number => exact h
            | Func p2 r2 => exact h
            | Object ps2 => exact h
            | TypeVar x2 => exact h
          | Func p1 r1 =>
            cases t2 with
            | Rec a2 b2 =>
              cases hsim : simplifyType (n + 1) (.Rec a2 b2) with
              | none => simp only [hsim] at h; cases h
              | some t2s =>
                simp only [hsim] at h
                simp only [simplify_mono _ _ _ hsim]
                exact ihS _ _ _ _ h
            | Boolean => exact h
            | Number => exact h
            | TypeVar x2 => exact h
            | Object ps2 => exact h
            | Func p2 r2 =>
              cases hlen : p1.length == p2.length with
              | false => simp only [hlen] at h ⊢; exact h
              | true =>
                simp only [hlen] at h ⊢
                cases hpar : typeEqSubParams n p1 p2 seen with
                | none => simp only [hpar] at h; cases h
                | some e =>
                  simp only [hpar] at h
                  simp only [ihP _ _ _ _ hpar]
                  cases e with
                  | error e2 => exact h
                  | ok bb =>
                    cases bb with
                    | false => exact h
                    | true => exact ihS _ _ _ _ h
          | Object ps1 =>
            cases t2 with
            | Rec a2 b2 =>
              cases hsim : simplifyType (n + 1) (.Rec a2 b2) with
              | none => simp only [hsim] at h; cases h
              | some t2s =>
                simp only [hsim] at h
                simp only [simplify_mono _ _ _ hsim]
                exact ihS _ _ _ _ h
            | Boolean => exact h
            | Number => exact h
            | TypeVar x2 => exact h
            | Func p2 r2 => exact h
            | Object ps2 =>
              cases hlen : ps1.length == ps2.length with
              | false => simp only [hlen] at h ⊢; exact h
              | true =>
                simp only [hlen] at h ⊢
                exact ihQ _ _ _ _ h
    · intro p1 p2 seen r h
      match p1, p2 with
      | [], p2 => exact h
      | a :: as, [] => exact h
      | a :: as, b :: bs =>
        simp only [typeEqSubParams] at h ⊢
        cases he : typeEqSub n a.2 b.2 seen with
        | none => simp only [he] at h; cases h
        | some e =>
          simp only [he] at h
          simp only [ihS _ _ _ _ he]
          cases e with
          | error e2 => exact h
          | ok bb =>
            cases bb with
            | false => exact h
            | true => exact ihP _ _ _ _ h
    · intro ps1 ps2 seen r h
      match ps2 with
      | [] => exact h
      | q :: qs =>
        simp only [typeEqSubProps] at h ⊢
        cases hf : findProp ps1 q.1 with
        | none => simp only [hf] at h ⊢; exact h
        | some p =>
          simp only [hf] at h ⊢
          cases he : typeEqSub n p.2 q.2 seen with
          | none => simp only [he] at h; cases h
          | some e =>
            simp only [he] at h
            simp only [ihS _ _ _ _ he]
            cases e with
            | error e2 => exact h
            | ok bb =>
              cases bb with
              | false => exact h
              | true => exact ihQ _ _ _ _ h

lemma typeEqSub_mono_le : ∀ (n m : Nat), n ≤ m →
    ∀ t1 t2 seen r, typeEqSub n t1 t2 seen = some r → typeEqSub m t1 t2 seen = some r := by
  intro n m hnm
  induction hnm with
  | refl => intro t1 t2 seen r h; exact h
  | step h2 ih =>
    intro t1 t2 seen r h
    exact (typeEqSub_mono_step _).1 _ _ _ _ (ih _ _ _ _ h)

lemma typeEqSubParams_mono_le : ∀ (n m : Nat), n ≤ m →
    ∀ p1 p2 seen r, typeEqSubParams n p1 p2 seen = some r → typeEqSubParams m p1 p2 seen = some r := by
  intro n m hnm
  induction hnm with
  | refl => intro p1 p2 seen r h; exact h
  | step h2 ih =>
    intro p1 p2 seen r h
    exact (typeEqSub_mono_step _).2.1 _ _ _ _ (ih _ _ _ _ h)

lemma typeEqSubProps_mono_le : ∀ (n m : Nat), n ≤ m →
    ∀ ps1 ps2 seen r, typeEqSubProps n ps1 ps2 seen = some r → typeEqSubProps m ps1 ps2 seen = some r := by
  intro n m hnm
  induction hnm with
  | refl => intro ps1 ps2 seen r h; exact h
  | step h2 ih =>
    intro ps1 ps2 seen r h
    exact (typeEqSub_mono_step _).2.2 _ _ _ _ (ih _ _ _ _ h)


lemma rect_sizeOf_snd_lt {ps : List (String × Ty)} {p : String × Ty} (hp : p ∈ ps) :
    sizeOf p.2 < sizeOf ps := by
  have h1 := List.sizeOf_lt_of_mem hp
  obtain ⟨a, b⟩ := p
  simp only [Prod.mk.sizeOf_spec] at h1
  simp only []
  omega

lemma typeEqSubParams_refl_exists {ps : List (String × Ty)}
    (h : ∀ p ∈ ps, ∃ n, typeEqSub n p.2 p.2 [] = some (.ok true)) :
    ∃ n, typeEqSubParams n ps ps [] = some (.ok true) := by
  induction ps with
  | nil => exact ⟨1, rfl⟩
  | cons p ps ih =>
    rcases h p (List.mem_cons.mpr (Or.inl rfl)) with ⟨n1, h1⟩
    rcases ih (fun q hq => h q (List.mem_cons.mpr (Or.inr hq))) with ⟨n2, h2⟩
    refine ⟨max n1 n2 + 1, ?_⟩
    have he : typeEqSub (max n1 n2) p.2 p.2 [] = some (.ok true) :=
      typeEqSub_mono_le n1 _ (le_max_left _ _) _ _ _ _ h1
    have hrest : typeEqSubParams (max n1 n2) ps ps [] = some (.ok true) :=
      typeEqSubParams_mono_le n2 _ (le_max_right _ _) _ _ _ _ h2
    simp only [typeEqSubParams, he, hrest]

lemma typeEqSubProps_refl_exists {ps : List (String × Ty)} (hd : keysDistinctR ps = true)
    (h : ∀ p ∈ ps, ∃ n, typeEqSub n p.2 p.2 [] = some (.ok true)) :
    ∀ l : List (String × Ty), (∀ q ∈ l, q ∈ ps) →
      ∃ n, typeEqSubProps n ps l [] = some (.ok true) := by
  intro l
  induction l with
  | nil => intro hsub; exact ⟨1, rfl⟩
  | cons q qs ih =>
    intro hsub
    have hqmem : q ∈ ps := hsub q (List.mem_cons.mpr (Or.inl rfl))
    rcases h q hqmem with ⟨n1, h1⟩
    rcases ih (fun x hx => hsub x (List.mem_cons.mpr (Or.inr hx))) with ⟨n2, h2⟩
    refine ⟨max n1 n2 + 1, ?_⟩
    have he : typeEqSub (max n1 n2) q.2 q.2 [] = some (.ok true) :=
      typeEqSub_mono_le n1 _ (le_max_left _ _) _ _ _ _ h1
    have hrest : typeEqSubProps (max n1 n2) ps qs [] = some (.ok true) :=
      typeEqSubProps_mono_le n2 _ (le_max_right _ _) _ _ _ _ h2
    simp only [typeEqSubProps, rect_findProp_self hd hqmem, he, hrest]

/-- Reflexivity of the fueled typeEqSub on ground types (no Rec or
TypeVar nodes) whose record field names are distinct: some fuel returns
ok true.  The seen list stays empty because no Rec node is ever
reached. -/
lemma rect_ground_refl : ∀ (k : Nat) (t : Ty), sizeOf t < k →
    ground t = true → nodupObjs t = true →
    ∃ n, typeEqSub n t t [] = some (.ok true) := by
  intro k
  induction k with
  | zero => intro t h; omega
  | succ k ih =>
    intro t hlt hg hn
    match t with
    | .Boolean => exact ⟨1, rfl⟩
    | .Number => exact ⟨1, rfl⟩
    | .Rec a b => simp [ground] at hg
    | .TypeVar x => simp [ground] at hg
    | .Func ps r =>
      simp only [ground, Bool.and_eq_true] at hg
      simp only [nodupObjs, Bool.and_eq_true] at hn
      have hszf : sizeOf ps < sizeOf (Ty.Func ps r) := by simp; try omega
      have hszr : sizeOf r < sizeOf (Ty.Func ps r) := by simp; try omega
      have hps : ∀ p ∈ ps, ∃ n, typeEqSub n p.2 p.2 [] = some (.ok true) := by
        intro p hp
        have hsz := rect_sizeOf_snd_lt hp
        exact ih p.2 (by omega) (rect_groundList_mem hg.1 hp) (rect_nodupList_mem hn.1 hp)
      rcases typeEqSubParams_refl_exists hps with ⟨n1, h1⟩
      rcases ih r (by omega) hg.2 hn.2 with ⟨n2, h2⟩
      refine ⟨max n1 n2 + 1, ?_⟩
      rw [typeEqSub_succ]
      have hpar : typeEqSubParams (max n1 n2) ps ps [] = some (.ok true) :=
        typeEqSubParams_mono_le n1 _ (le_max_left _ _) _ _ _ _ h1
      have hret : typeEqSub (max n1 n2) r r [] = some (.ok true) :=
        typeEqSub_mono_le n2 _ (le_max_right _ _) _ _ _ _ h2
      simp only [seenCheck, beq_self_eq_true, hpar, hret]
    | .Object ps =>
      simp only [ground] at hg
      simp only [nodupObjs, Bool.and_eq_true] at hn
      have hszf : sizeOf ps < sizeOf (Ty.Object ps) := by simp; try omega
      have hps : ∀ p ∈ ps, ∃ n, typeEqSub n p.2 p.2 [] = some (.ok true) := by
        intro p hp
        have hsz := rect_sizeOf_snd_lt hp
        exact ih p.2 (by omega) (rect_groundList_mem hg hp) (rect_nodupList_mem hn.2 hp)
      rcases typeEqSubProps_refl_exists hn.1 hps ps (fun q hq => hq) with ⟨n1, h1⟩
      refine ⟨n1 + 1, ?_⟩
      rw [typeEqSub_succ]
      simp only [seenCheck, beq_self_eq_true, h1]

end RecT

/-! ### Claim theorems

One theorem per claim of the specification review, with witnesses for
theorems that carry hypotheses and counterexamples for corrected
claims. -/

/-- C2 helper: simplifyType never returns on the degenerate recursive
type Rec A. A, whose one-step unfolding is itself. -/
lemma rect_simplify_recaa_none :
    ∀ k, RecT.simplifyType k (.Rec "A" (.TypeVar "A")) = none := by
  intro k
  induction k with
  | zero => rfl
  | succ k ih =>
    rw [RecT.simplifyType]
    exact ih

/-- C1 (amended): in the subtyping variant, typechecking a call
succeeds exactly when the callee checks to a Func type, the argument
count equals the declared parameter count, and every argument's
inferred type is a subtype of the corresponding declared parameter
type (arguments paired with parameters by position, expressed by zip
plus the length equation); the result is the callee's return type, and
violating any condition is a checked error.  The recursive-types
variant instead compares arguments to parameter types with typeEq
after unfolding the callee, so a wider record argument is a checked
error there (see the counterexample). -/
theorem claim_C1_call_subtyping :
    ∀ (f : SubV.Term) (args : List SubV.Term) (env : STLC.TypeEnv) (ty : STLC.Ty),
      SubV.typecheck (.call f args) env = .ok ty ↔
        ∃ ps r, SubV.typecheck f env = .ok (.Func ps r) ∧ ps.length = args.length ∧
          (∀ pr ∈ args.zip ps, ∃ aty, SubV.typecheck pr.1 env = .ok aty ∧
            STLC.subType aty pr.2.2 = true) ∧ r = ty := by
  intro f args env ty
  have hunfold : SubV.typecheck (.call f args) env =
      (match SubV.typecheck f env with
       | .error e => .error e
       | .ok fty =>
         match fty with
         | .Func ps r =>
           match ps.length == args.length with
           | true =>
             match SubV.checkArgs args ps env with
             | .error e => .error e
             | .ok _ => .ok r
           | false => .error "wrong number of arguments"
         | _ => .error "function type expected") := rfl
  cases hf : SubV.typecheck f env with
  | error e =>
    constructor
    · intro h
      simp only [hunfold, hf] at h
      exact Except.noConfusion h
    · rintro ⟨ps, r, hok, -, -, -⟩
      exact Except.noConfusion hok
  | ok fty =>
    cases fty with
    | Boolean =>
      constructor
      · intro h
        simp only [hunfold, hf] at h
        exact Except.noConfusion h
      · rintro ⟨ps, r, hok, -, -, -⟩
        injection hok with h2
        cases h2
    | Number =>
      constructor
      · intro h
        simp only [hunfold, hf] at h
        exact Except.noConfusion h
      · rintro ⟨ps, r, hok, -, -, -⟩
        injection hok with h2
        cases h2
    | Object ps0 =>
      constructor
      · intro h
        simp only [hunfold, hf] at h
        exact Except.noConfusion h
      · rintro ⟨ps, r, hok, -, -, -⟩
        injection hok with h2
        cases h2
    | Func ps r =>
      cases hlen : ps.length == args.length with
      | false =>
        constructor
        · intro h
          simp only [hunfold, hf, hlen] at h
          exact Except.noConfusion h
        · rintro ⟨ps2, r2, hok, hlen2, -, -⟩
          injection hok with h2
          injection h2 with h3 h4
          subst h3
          exact absurd hlen2 (by rwa [beq_eq_false_iff_ne] at hlen)
      | true =>
        cases hargs : SubV.checkArgs args ps env with
        | error e =>
          constructor
          · intro h
            simp only [hunfold, hf, hlen, hargs] at h
            exact Except.noConfusion h
          · rintro ⟨ps2, r2, hok, -, hall, -⟩
            injection hok with h2
            injection h2 with h3 h4
            subst h3
            have hok2 := (SubV.checkArgs_ok_iff args ps env).mpr hall
            rw [hargs] at hok2
            exact Except.noConfusion hok2
        | ok u =>
          constructor
          · intro h
            simp only [hunfold, hf, hlen, hargs] at h
            injection h with h1
            refine ⟨ps, r, rfl, by rwa [beq_iff_eq] at hlen, ?_, h1⟩
            apply (SubV.checkArgs_ok_iff args ps env).mp
            rw [hargs]
          · rintro ⟨ps2, r2, hok, -, -, hr⟩
            injection hok with h2
            injection h2 with h3 h4
            simp only [hunfold, hf, hlen, hargs]
            rw [h4, hr]

/-- Witness for C1: the end-to-end width-subtyping scenario of the
spec, a function expecting a record with field foo applied to a record
with fields foo and bar, accepted with result Number by the subtyping
variant. -/
theorem claim_C1_witness :
    SubV.typecheck (.call (.func [("x", .Object [("foo", .Number)])] (.objectGet (.var "x") "foo"))
        [.objectNew [("foo", .number 1), ("bar", .ttrue)]]) [] = .ok .Number := by
  apply (claim_C1_call_subtyping _ _ _ _).mpr
  refine ⟨[("x", .Object [("foo", .Number)])], .Number, ?_, rfl, ?_, rfl⟩
  · simp [SubV.typecheck, SubV.extendParams, STLC.lookupEnv, STLC.findProp, List.find?]
  · intro pr hpr
    have hpr2 : pr = (SubV.Term.objectNew [("foo", .number 1), ("bar", .ttrue)],
        ("x", STLC.Ty.Object [("foo", STLC.Ty.Number)])) := by
      simpa using hpr
    subst hpr2
    refine ⟨.Object [("foo", .Number), ("bar", .Boolean)], ?_, ?_⟩
    · simp [SubV.typecheck, SubV.checkProps]
    · simp [STLC.subType, STLC.subTypeProps, STLC.findProp, List.find?]

/-- C1 counterexample: the argument record with fields foo and bar is
a genuine subtype of the declared parameter record with field foo
(first conjunct), yet the recursive-types variant — one of the two
implementations of the call rule this claim covers — rejects the call
with the parameter-type-mismatch error because its argument check uses
typeEq, not subtyping. -/
theorem claim_C1_counterexample :
    STLC.subType (.Object [("foo", .Number), ("bar", .Boolean)]) (.Object [("foo", .Number)]) = true ∧
    RecT.typecheck 10
      (.call (.func [("x", .Object [("foo", .Number)])] (.objectGet (.var "x") "foo"))
             [.objectNew [("foo", .number 1), ("bar", .ttrue)]]) []
      = some (.error "parameter type mismatch") := by
  constructor
  · simp [STLC.subType, STLC.subTypeProps, STLC.findProp, List.find?]
  · rfl

/-- C2 (amended): typeEquals is reflexive on every well-formed type
without Rec binders (ground types with the record-field uniqueness
invariant), and on guarded self-referential record types such as
Rec NumStream.{num: Number, rest: () => NumStream}; but not on every
well-formed type: on the degenerate closed type Rec A. A the function
diverges (see the counterexample). -/
theorem claim_C2_typeeq_refl :
    (∀ t : RecT.Ty, RecT.ground t = true → RecT.nodupObjs t = true →
       ∃ n, RecT.typeEq n t t = some (.ok true)) ∧
    RecT.typeEq 30
      (.Rec "NumStream" (.Object [("num", .Number), ("rest", .Func [] (.TypeVar "NumStream"))]))
      (.Rec "NumStream" (.Object [("num", .Number), ("rest", .Func [] (.TypeVar "NumStream"))]))
      = some (.ok true) := by
  constructor
  · intro t hg hn
    exact RecT.rect_ground_refl (sizeOf t + 1) t (by omega) hg hn
  · rfl

/-- Witness for C2 at a concrete ground type. -/
theorem claim_C2_witness :
    ∃ n, RecT.typeEq n (.Func [("x", .Number)] .Boolean) (.Func [("x", .Number)] .Boolean)
      = some (.ok true) :=
  claim_C2_typeeq_refl.1 (.Func [("x", .Number)] .Boolean) rfl rfl

/-- C2 counterexample: the closed (well-formed in the sense of the
data model: no free type variables) type Rec A. A makes typeEquals
diverge — at every fuel the embedding runs out, mirroring the
unbounded recursion of simplifyType in the source — so typeEquals
applied to it and itself never returns true. -/
theorem claim_C2_counterexample :
    RecT.typeEqDiverges (.Rec "A" (.TypeVar "A")) (.Rec "A" (.TypeVar "A")) ∧
    RecT.typeEqNeverTrue (.Rec "A" (.TypeVar "A")) (.Rec "A" (.TypeVar "A")) := by
  have hdiv : RecT.typeEqDiverges (.Rec "A" (.TypeVar "A")) (.Rec "A" (.TypeVar "A")) := by
    intro n
    match n with
    | 0 => rfl
    | n + 1 =>
      show RecT.typeEqSub (n + 1) (.Rec "A" (.TypeVar "A")) (.Rec "A" (.TypeVar "A")) [] = none
      rw [RecT.typeEqSub_succ]
      simp only [RecT.seenCheck, rect_simplify_recaa_none]
  refine ⟨hdiv, fun n h => ?_⟩
  rw [hdiv n] at h
  cases h

/-- C3: typeEquals terminates with an answer (true) on the
self-referential record type Rec NumStream.{rest: () => NumStream},
applied both to the type and itself and to two alpha-variants of the
type; fuel 20 suffices, the seen list closing the cycle after one
unfolding of each side. -/
theorem claim_C3_termination :
    RecT.typeEq 20
      (.Rec "NumStream" (.Object [("rest", .Func [] (.TypeVar "NumStream"))]))
      (.Rec "NumStream" (.Object [("rest", .Func [] (.TypeVar "NumStream"))]))
      = some (.ok true) ∧
    RecT.typeEq 20
      (.Rec "NumStream" (.Object [("rest", .Func [] (.TypeVar "NumStream"))]))
      (.Rec "S" (.Object [("rest", .Func [] (.TypeVar "S"))]))
      = some (.ok true) := ⟨rfl, rfl⟩

/-- C4: the subtyping relation subType is reflexive on every type
satisfying the data model's record-field-name uniqueness invariant,
and transitive on all types. -/
theorem claim_C4_subType_refl_trans :
    (∀ a : STLC.Ty, STLC.wfTy a = true → STLC.subType a a = true) ∧
    (∀ a b c : STLC.Ty, STLC.subType a b = true → STLC.subType b c = true →
      STLC.subType a c = true) := by
  constructor
  · intro a hwf
    exact STLC.subType_refl_sized (sizeOf a + 1) a (by omega) hwf
  · intro a b c h1 h2
    exact STLC.subType_trans_sized (sizeOf a + sizeOf b + sizeOf c + 1) a b c (by omega) h1 h2

/-- Witness for C4: reflexivity at a function-over-record type, and
transitivity along a chain of record types. -/
theorem claim_C4_witness :
    STLC.subType (.Func [("x", .Object [("foo", .Number)])] .Boolean)
                 (.Func [("x", .Object [("foo", .Number)])] .Boolean) = true ∧
    STLC.subType (.Object [("foo", .Number), ("bar", .Boolean)]) (.Object []) = true := by
  constructor
  · exact claim_C4_subType_refl_trans.1 _ rfl
  · exact claim_C4_subType_refl_trans.2
      (.Object [("foo", .Number), ("bar", .Boolean)]) (.Object [("foo", .Number)]) (.Object [])
      (by simp [STLC.subType, STLC.subTypeProps, STLC.findProp, List.find?])
      (by simp [STLC.subType, STLC.subTypeProps])

/-- C5: function subtyping is contravariant in the parameter and
covariant in the return type; the reverse direction fails for concrete
types; and a function whose parameter-list length differs from the
supertype's is never a subtype. -/
theorem claim_C5_function_variance :
    (∀ (a1 a2 b1 b2 : STLC.Ty) (n1 n2 : String),
       STLC.subType a2 a1 = true → STLC.subType b1 b2 = true →
       STLC.subType (.Func [(n1, a1)] b1) (.Func [(n2, a2)] b2) = true) ∧
    (∃ a1 a2 b1 b2 : STLC.Ty,
       STLC.subType a2 a1 = true ∧ STLC.subType b1 b2 = true ∧
       STLC.subType (.Func [("x", a2)] b2) (.Func [("x", a1)] b1) = false) ∧
    (∀ (p1 p2 : List (String × STLC.Ty)) (r1 r2 : STLC.Ty),
       p1.length ≠ p2.length → STLC.subType (.Func p1 r1) (.Func p2 r2) = false) := by
  refine ⟨?_, ?_, ?_⟩
  · intro a1 a2 b1 b2 n1 n2 h1 h2
    simp only [STLC.subType, STLC.subTypeParams]
    simp [h1, h2]
  · refine ⟨.Object [("foo", .Number)], .Object [("foo", .Number), ("bar", .Boolean)],
      .Number, .Number, ?_, ?_, ?_⟩
    · simp [STLC.subType, STLC.subTypeProps, STLC.findProp, List.find?]
    · simp [STLC.subType]
    · simp [STLC.subType, STLC.subTypeParams, STLC.subTypeProps, STLC.findProp, List.find?]
  · intro p1 p2 r1 r2 hne
    have hb : (p1.length == p2.length) = false := by
      rw [beq_eq_false_iff_ne]
      exact hne
    simp [STLC.subType, hb]

/-- Witness for C5: variance at concrete types (wider record parameter
accepted through contravariance), and rejection of a parameter-count
mismatch. -/
theorem claim_C5_witness :
    STLC.subType (.Func [("x", .Object [("foo", .Number)])] .Number)
                 (.Func [("y", .Object [("foo", .Number), ("bar", .Boolean)])] .Number) = true ∧
    STLC.subType (.Func [] .Number) (.Func [("x", .Number)] .Number) = false := by
  constructor
  · apply claim_C5_function_variance.1
    · simp [STLC.subType, STLC.subTypeProps, STLC.findProp, List.find?]
    · simp [STLC.subType]
  · exact claim_C5_function_variance.2.2 [] [("x", .Number)] .Number .Number (by simp)

/-- C6: width subtyping on records: under the field-name uniqueness
invariant, an Object type is a subtype of another exactly when every
field required by the supertype has a same-named field in the subtype
whose type is a subtype of the required type, extra fields permitted;
concretely {foo: Number, bar: Boolean} is a subtype of {foo: Number}
and not conversely. -/
theorem claim_C6_width_subtyping :
    (∀ ps1 ps2 : List (String × STLC.Ty), STLC.keysDistinct ps1 = true →
       (STLC.subType (.Object ps1) (.Object ps2) = true ↔
         ∀ q ∈ ps2, ∃ p ∈ ps1, p.1 = q.1 ∧ STLC.subType p.2 q.2 = true)) ∧
    STLC.subType (.Object [("foo", .Number), ("bar", .Boolean)]) (.Object [("foo", .Number)]) = true ∧
    STLC.subType (.Object [("foo", .Number)]) (.Object [("foo", .Number), ("bar", .Boolean)]) = false := by
  refine ⟨?_, ?_, ?_⟩
  · intro ps1 ps2 hd
    simp only [STLC.subType]
    rw [STLC.subTypeProps_iff]
    constructor
    · intro h q hq
      rcases h q hq with ⟨p, hf, hs⟩
      rcases STLC.stlc_findProp_mem hf with ⟨hmem, hname⟩
      exact ⟨p, hmem, hname, hs⟩
    · intro h q hq
      rcases h q hq with ⟨p, hmem, hname, hs⟩
      refine ⟨p, ?_, hs⟩
      have hself := STLC.stlc_findProp_self hd hmem
      rw [hname] at hself
      exact hself
  · simp [STLC.subType, STLC.subTypeProps, STLC.findProp, List.find?]
  · simp [STLC.subType, STLC.subTypeProps, STLC.findProp, List.find?]

/-- Witness for C6: the characterization applied at concrete record
types with an extra field on the subtype side. -/
theorem claim_C6_witness :
    STLC.subType (.Object [("a", .Number), ("b", .Boolean)]) (.Object [("b", .Boolean)]) = true := by
  apply (claim_C6_width_subtyping.1 [("a", .Number), ("b", .Boolean)] [("b", .Boolean)] rfl).mpr
  intro q hq
  have hq2 : q = ("b", STLC.Ty.Boolean) := by simpa using hq
  subst hq2
  exact ⟨("b", STLC.Ty.Boolean), by simp, rfl, by simp [STLC.subType]⟩

/-- C7: for a recursive function definition, the body is checked in an
environment binding the parameters and then the function's own name to
its declared signature; if the body's type is not typeEq to the
declared return type the result is the wrong-return-type error
(ReturnTypeMismatch); if it is, the whole term's type is the type of
rest checked in an environment extending the outer one with only the
function name; and the spec's concrete scenario — a function declared
to return Number whose body calls itself — typechecks to Number. -/
theorem claim_C7_recfunc :
    (∀ (env : STLC.TypeEnv) (fname : String) (ps : List (String × STLC.Ty)) (rt : STLC.Ty)
       (body rest : RecFuncV.Term) (bt : STLC.Ty),
       RecFuncV.typecheck body ((fname, .Func ps rt) :: RecFuncV.extendParams env ps) = .ok bt →
       STLC.typeEq rt bt = false →
       RecFuncV.typecheck (.recFunc fname ps rt body rest) env = .error "wrong return type") ∧
    (∀ (env : STLC.TypeEnv) (fname : String) (ps : List (String × STLC.Ty)) (rt : STLC.Ty)
       (body rest : RecFuncV.Term) (bt : STLC.Ty),
       RecFuncV.typecheck body ((fname, .Func ps rt) :: RecFuncV.extendParams env ps) = .ok bt →
       STLC.typeEq rt bt = true →
       RecFuncV.typecheck (.recFunc fname ps rt body rest) env =
         RecFuncV.typecheck rest ((fname, .Func ps rt) :: env)) ∧
    RecFuncV.typecheck (.recFunc "f" [("x", .Number)] .Number
      (.call (.var "f") [.var "x"]) (.call (.var "f") [.number 0])) [] = .ok .Number := by
  have hstep : ∀ (env : STLC.TypeEnv) (fname : String) (ps : List (String × STLC.Ty)) (rt : STLC.Ty)
      (body rest : RecFuncV.Term),
      RecFuncV.typecheck (.recFunc fname ps rt body rest) env =
        (match RecFuncV.typecheck body ((fname, .Func ps rt) :: RecFuncV.extendParams env ps) with
         | .error e => .error e
         | .ok bt =>
           match STLC.typeEq rt bt with
           | true => RecFuncV.typecheck rest ((fname, .Func ps rt) :: env)
           | false => .error "wrong return type") := fun _ _ _ _ _ _ => rfl
  refine ⟨?_, ?_, ?_⟩
  · intro env fname ps rt body rest bt hbody hne
    rw [hstep]
    simp only [hbody, hne]
  · intro env fname ps rt body rest bt hbody heq
    rw [hstep]
    simp only [hbody, heq]
  · simp [RecFuncV.typecheck, RecFuncV.checkArgsEq, RecFuncV.extendParams,
      STLC.lookupEnv, STLC.typeEq, STLC.typeEqParams, List.find?]

/-- Witness for C7: a function declared to return Number whose body is
the Boolean literal true fails with the wrong-return-type error. -/
theorem claim_C7_witness :
    RecFuncV.typecheck (.recFunc "f" [("x", .Number)] .Number .ttrue (.number 0)) []
      = .error "wrong return type" :=
  claim_C7_recfunc.1 [] "f" [("x", .Number)] .Number .ttrue (.number 0) .Boolean rfl
    (by simp [STLC.typeEq])

/-- C8 (amended): the renaming-aware shape comparison typeEqNaive
raises an exception (the source throws the string below) rather than
returning false when it reaches a TypeVar on the left whose binder name
is not in the renaming map; the case is reached when the right type is
also a TypeVar. -/
theorem claim_C8_unbound_typevar_throws :
    ∀ (m : List (String × String)) (n1 n2 : String),
      RecT.lookupName m n1 = none →
      RecT.typeEqNaive (.TypeVar n1) (.TypeVar n2) m = .error ("unknown type variable: " ++ n1) := by
  intro m n1 n2 h
  simp only [RecT.typeEqNaive, h]

/-- Witness for C8 at a concrete unbound type variable. -/
theorem claim_C8_witness :
    RecT.typeEqNaive (.TypeVar "Y") (.TypeVar "Z") [("A", "B")]
      = .error "unknown type variable: Y" :=
  claim_C8_unbound_typevar_throws [("A", "B")] "Y" "Z" rfl

/-- C8 counterexample: on an unbound type variable typeEqNaive raises
(returns an embedded exception), not the value false the claim
demands. -/
theorem claim_C8_counterexample :
    RecT.typeEqNaive (.TypeVar "X") (.TypeVar "X") [] = .error "unknown type variable: X" ∧
    RecT.typeEqNaive (.TypeVar "X") (.TypeVar "X") [] ≠ .ok false := by
  refine ⟨rfl, ?_⟩
  intro h
  rw [show RecT.typeEqNaive (.TypeVar "X") (.TypeVar "X") [] =
    (.error "unknown type variable: X" : Except String Bool) from rfl] at h
  cases h

/-- C9 (amended): simplifyType applies the one-step unfolding
expandType(body, name, Rec name body) — the capture-avoiding
substitution of the binder by the whole Rec node, which leaves a Rec
rebinding the same name untouched and reuses the original Rec node
intact as the replacement value — and keeps unfolding while the result
is still Rec-headed; whenever the one-step unfolding is not itself a
Rec, the result is exactly the one-step unfolding. -/
theorem claim_C9_unfolder :
    (∀ (n : Nat) (name : String) (body : RecT.Ty),
       (∀ a b, RecT.expandType body name (.Rec name body) ≠ .Rec a b) →
       RecT.simplifyType (n + 2) (.Rec name body) =
         some (RecT.expandType body name (.Rec name body))) ∧
    (∀ (x : String) (b rep : RecT.Ty), RecT.expandType (.Rec x b) x rep = .Rec x b) ∧
    (∀ (x : String) (rep : RecT.Ty), RecT.expandType (.TypeVar x) x rep = rep) := by
  refine ⟨?_, ?_, ?_⟩
  · intro n name body hnr
    rw [RecT.simplifyType]
    generalize hu : RecT.expandType body name (.Rec name body) = u
    rw [hu] at hnr
    cases u with
    | Rec a b => exact absurd rfl (hnr a b)
    | Boolean => rfl
    | Number => rfl
    | Func ps r => rfl
    | Object ps => rfl
    | TypeVar x => rfl
  · intro x b rep
    simp [RecT.expandType]
  · intro x rep
    simp [RecT.expandType]

/-- Witness for C9: one-step unfolding of the NumStream type, whose
unfolding is an Object and therefore returned exactly. -/
theorem claim_C9_witness :
    RecT.simplifyType 7 (.Rec "NumStream" (.Object [("rest", .Func [] (.TypeVar "NumStream"))])) =
      some (.Object [("rest", .Func []
        (.Rec "NumStream" (.Object [("rest", .Func [] (.TypeVar "NumStream"))])))]) := by
  have h := claim_C9_unfolder.1 5 "NumStream" (.Object [("rest", .Func [] (.TypeVar "NumStream"))])
    (by intro a b hh; cases hh)
  exact h

/-- C9 counterexample: on Rec A. Rec B. Number the unfolder does not
stop after one step: the one-step unfolding is Rec B. Number, but
simplifyType unfolds again and returns Number. -/
theorem claim_C9_counterexample :
    RecT.simplifyType 5 (.Rec "A" (.Rec "B" .Number)) = some .Number ∧
    RecT.expandType (.Rec "B" .Number) "A" (.Rec "A" (.Rec "B" .Number)) = .Rec "B" .Number ∧
    (RecT.Ty.Number ≠ RecT.Ty.Rec "B" RecT.Ty.Number) := by
  refine ⟨rfl, rfl, ?_⟩
  intro h
  cases h

/-- C10: when a function literal's parameter list contains duplicate
names, the body is checked in the environment produced by binding the
parameters in order with later bindings overwriting earlier ones (the
lookup equation below resolves a name to the last parameter carrying
it), while the resulting Func type lists every declared parameter,
duplicates included, in order; the concrete example shows both. -/
theorem claim_C10_duplicate_params :
    (∀ (env : STLC.TypeEnv) (ps : List (String × STLC.Ty)) (body : SubV.Term),
       SubV.typecheck (.func ps body) env =
         (match SubV.typecheck body (SubV.extendParams env ps) with
          | .error e => .error e
          | .ok r => .ok (.Func ps r))) ∧
    (∀ (env : STLC.TypeEnv) (ps : List (String × STLC.Ty)) (x : String),
       STLC.lookupEnv (SubV.extendParams env ps) x =
         (match ps.reverse.find? (fun p => p.1 == x) with
          | some p => some p.2
          | none => STLC.lookupEnv env x)) ∧
    SubV.typecheck (.func [("x", .Number), ("x", .Boolean)] (.var "x")) [] =
      .ok (.Func [("x", .Number), ("x", .Boolean)] .Boolean) := by
  refine ⟨fun env ps body => rfl, SubV.subv_lookup_extendParams, ?_⟩
  simp [SubV.typecheck, SubV.extendParams, STLC.lookupEnv, List.find?]
